import Mathlib

/-!
Shallow embedding of the gdpy3 key-discovery core and its loader layer.

Source files embedded here:
* `src/loaders/base.py` — `BasePckLoader` (`update`, `get`, `get_many`,
  `clear_cache`, `keys`, `groups`, `_special_getgroups`) and
  `BaseRawLoader` (`update`, `get`).
* `src/cores/tests/test_digger.py` — the three concrete digger fixtures
  (`ImpDigger1/2/3`): their patterns and `_set_fignum` label rules.

The resolver itself (`src/cores/digger.py`, class `Digger`) is not present in
the source tree — only its tests and callers are — so the resolution
algorithm is modelled from the specification (see the `Modelled from the
spec:` doc comments below).

Python regular expressions are embedded as an explicit abstract syntax tree
`Rx` with a backtracking matcher `reMatch` implementing `re.match` semantics
(anchored at the start, prefix match unless the pattern ends in `$`,
left-biased alternation, named captures reported in group order).
-/

/-! ### Association lists: the embedding of Python `dict` used as a cache -/

/-- Lookup in an association list; the embedding of `d[k]` / `k in d`
for a Python `dict` with string keys. -/
def lookupAL {β : Type} : List (String × β) → String → Option β
  | [], _ => none
  | (k2, v) :: t, k => if k2 = k then some v else lookupAL t k

/-- The embedding of `d[k] = v` on a Python `dict`: replace the value in
place when the key is present (dicts keep insertion order), append the new
binding otherwise. -/
def insertAL {β : Type} : List (String × β) → String → β → List (String × β)
  | [], k, v => [(k, v)]
  | (k2, w) :: t, k, v =>
      if k2 = k then (k, v) :: t else (k2, w) :: insertAL t k v

/-! ### Deterministic string ordering

Python compares strings lexicographically by code point; `sorted` on distinct
strings is therefore a canonical function of the underlying set.  We embed it
through the linear order on `List Char`, which (unlike `String.le`'s
byte-iterator implementation) evaluates inside the kernel. -/

/-- Code-point lexicographic order on keys, the order used by Python
`sorted` on strings. -/
def keyLe (a b : String) : Prop := a.data ≤ b.data

instance : DecidableRel keyLe := fun a b =>
  inferInstanceAs (Decidable (a.data ≤ b.data))

instance : IsTotal String keyLe := ⟨fun a b => le_total a.data b.data⟩

instance : IsTrans String keyLe := ⟨fun _ _ _ h1 h2 => le_trans h1 h2⟩

instance : IsAntisymm String keyLe :=
  ⟨fun _ _ h1 h2 => String.ext (le_antisymm h1 h2)⟩

/-- The embedding of Python `sorted` on a list of keys. -/
def sortKeys (l : List String) : List String := List.insertionSort keyLe l

/-- The embedding of Python `key.startswith(g)` (used by
`BasePckLoader.update` to drop keys of excluded groups). -/
def strStartsWith (g k : String) : Bool := g.data.isPrefixOf k.data

/-! ### First-occurrence grouping and deduplication -/

/-- Fuel-indexed worker for `groupRuns` (the fuel keeps the recursion
structural, so concrete instances evaluate inside the kernel; any fuel at
least the list length is enough). -/
def groupRunsAux {α β : Type} (f : α → β) [DecidableEq β] :
    Nat → List α → List (List α)
  | 0, _ => []
  | _ + 1, [] => []
  | n + 1, x :: xs =>
      (x :: xs.filter (fun y => f y = f x)) ::
        groupRunsAux f n (xs.filter (fun y => ¬ (f y = f x)))

/-- Cluster a list by the fiber of `f`, in order of first appearance: the
first block holds every element sharing the first element's `f`-value (in
list order), and so on.  Used to emit work units grouped by group prefix in
the order groups first appear, as the spec's step 6 requires. -/
def groupRuns {α β : Type} (f : α → β) [DecidableEq β] (l : List α) :
    List (List α) :=
  groupRunsAux f l.length l

/-- Fuel-indexed worker for `dedupBy`. -/
def dedupByAux {α β : Type} (f : α → β) [DecidableEq β] :
    Nat → List α → List α
  | 0, _ => []
  | _ + 1, [] => []
  | n + 1, x :: xs => x :: dedupByAux f n (xs.filter (fun y => ¬ (f y = f x)))

/-- Keep only the first element for each distinct value of `f`: the spec's
"one WorkUnit per distinct variant value" rule. -/
def dedupBy {α β : Type} (f : α → β) [DecidableEq β] (l : List α) : List α :=
  dedupByAux f l.length l

/-! ### Regular expressions with named captures -/

/-- Abstract syntax of the (small) regex fragment the embedded patterns use:
literals, `\d`, alternation, concatenation, named groups `(?P<n>...)` and the
`$` anchor.  `re.match` anchors at the start, so `^` needs no constructor. -/
inductive Rx : Type where
  | lit (cs : List Char)
  | digit
  | alt (a b : Rx)
  | seq (a b : Rx)
  | grp (name : String) (r : Rx)
  | eos
deriving DecidableEq, Repr

/-- Backtracking matcher in continuation-passing style, mirroring the Python
`re` engine's behavior on this fragment: left-biased alternation with full
backtracking; each named group records the substring it consumed, in group
order (no nested named groups occur in the embedded patterns). -/
def Rx.run : Rx → List Char → List (String × String) →
    (List Char → List (String × String) → Option (List (String × String))) →
    Option (List (String × String))
  | .lit cs, s, caps, k =>
      if cs.isPrefixOf s then k (s.drop cs.length) caps else none
  | .digit, s, caps, k =>
      match s with
      | c :: t => if c.isDigit then k t caps else none
      | [] => none
  | .alt a b, s, caps, k =>
      match a.run s caps k with
      | some r => some r
      | none => b.run s caps k
  | .seq a b, s, caps, k => a.run s caps (fun s2 caps2 => b.run s2 caps2 k)
  | .grp n r, s, caps, k =>
      r.run s caps (fun s2 caps2 =>
        k s2 (caps2 ++ [(n, ⟨s.take (s.length - s2.length)⟩)]))
  | .eos, s, caps, k =>
      match s with
      | [] => k [] caps
      | _ :: _ => none

/-- The embedding of `re.match(pattern, s)`: anchored at the start, a prefix
match suffices, and on success the named captures are returned in group
order. -/
def reMatch (r : Rx) (s : String) : Option (List (String × String)) :=
  r.run s.data [] (fun _ caps => some caps)

/-- Names of the named capture groups of a pattern, in group order. -/
def Rx.names : Rx → List String
  | .lit _ => []
  | .digit => []
  | .eos => []
  | .alt a b => a.names ++ b.names
  | .seq a b => a.names ++ b.names
  | .grp n r => n :: r.names

/-! ### `os.path.dirname` -/

/-- Character-list form of `os.path.dirname`: everything up to the last `/`,
with trailing slashes stripped unless that head is all slashes. -/
def dirnameData (cs : List Char) : List Char :=
  let i := match cs.reverse.findIdx? (fun c => c == '/') with
    | some j => cs.length - j
    | none => 0
  let head := cs.take i
  if !head.isEmpty && head.any (fun c => c != '/') then
    (head.reverse.dropWhile (fun c => c == '/')).reverse
  else head

/-- The embedding of `os.path.dirname` (posixpath).  Used by
`BasePckLoader._special_getgroups` to derive each key's group. -/
def dirname (p : String) : String := ⟨dirnameData p.data⟩

/-! ### The resolver data model

`src/cores/digger.py` is not part of the source tree (only its tests in
`src/cores/tests/test_digger.py` are), so `PatternSpec`, `WorkUnit` and
`resolve` below are modelled from the specification. -/

/-- Modelled from the spec: the resolved, bound result of one valid key
combination — group identity, ordered primary keys, auxiliary keys and a
derived label (`srckeys`, `extrakeys`, `group`, `fignum` in the reference
tests). -/
structure WorkUnit where
  group : String
  primaryKeys : List String
  auxiliaryKeys : List String
  label : String
deriving DecidableEq, Repr

/-- Modelled from the spec: the completeness requirement — either the
sentinel `ALL` (every pattern must have at least one match inside the group)
or an explicit list of regexes that the group's matched keys must
collectively satisfy. -/
inductive Completeness : Type where
  | all
  | explicitList (rs : List Rx)

/-- Modelled from the spec: the immutable declarative description of one
work-unit shape.  `patterns` is the ordered non-empty pattern list
(`patterns[0]` primary, the rest companions — `itemspattern` in the
reference tests), `completeness` is the `neededpattern` rule, `auxiliary`
the always-attached literal key list (`commonpattern`), and `labelOf` the
key-to-label derivation rule (the concrete diggers' `_set_fignum`). -/
structure PatternSpec where
  patterns : List Rx
  completeness : Completeness
  auxiliary : List String
  labelOf : String → String

/-- Modelled from the spec: the variant dimensions — named capture groups
appearing only in `patterns[0]`, not in any companion pattern. -/
def variantNames (p0 : Rx) (rest : List Rx) : List String :=
  p0.names.filter (fun n => ¬ rest.any (fun p => p.names.contains n))

/-- Modelled from the spec: the tuple of variant-dimension capture values for
a key under the primary pattern (empty when the key does not match). -/
def variantOf (p0 : Rx) (vnames : List String) (k : String) :
    List (String × String) :=
  match reMatch p0 k with
  | some caps => caps.filter (fun c => vnames.contains c.1)
  | none => []

/-- Modelled from the spec (step 3a): for every companion pattern, all of
its matches inside group `g` (cumulative requirements, not alternatives),
each pattern's match list sorted lexicographically for reproducibility, in
pattern order. -/
def compsOf (keys : List String) (rest : List Rx) (g : String) :
    List (List String) :=
  rest.map (fun p =>
    sortKeys (keys.filter (fun x => dirname x == g && (reMatch p x).isSome)))

/-- Modelled from the spec: the keys of group `g` matching the primary
pattern (used by the completeness evaluation: the group's matched keys are
the primary matches together with the companion matches). -/
def primInGroup (keys : List String) (p0 : Rx) (g : String) : List String :=
  keys.filter (fun x => dirname x == g && (reMatch p0 x).isSome)

/-- Modelled from the spec (step 3b): the completeness verdict for group
`g` — under `ALL`, every companion pattern must have a match in the group
(the primary pattern is already witnessed by the candidate key); under an
explicit list, every listed regex must be satisfied by some matched key of
the group. -/
def unitOk (keys : List String) (sp : PatternSpec) (p0 : Rx)
    (rest : List Rx) (g : String) : Bool :=
  match sp.completeness with
  | .all => (compsOf keys rest g).all (fun c => !c.isEmpty)
  | .explicitList rl => rl.all (fun r =>
      (primInGroup keys p0 g ++ (compsOf keys rest g).flatten).any
        (fun x => (reMatch r x).isSome))

/-- Modelled from the spec (steps 3–5 of the resolution algorithm): build
the work unit for one `(group, variant)` representative key `k` of a
MULTI-cardinality spec.  An unsatisfied completeness verdict yields `none`
(the combination is dropped silently).  `primaryKeys` is the primary key
followed by the companion matches in pattern order; auxiliary keys are
attached unconditionally (the embedded specs use only literal auxiliary
entries, for which the spec's group substitution is the identity). -/
def mkMultiUnit (keys : List String) (sp : PatternSpec) (p0 : Rx)
    (rest : List Rx) (k : String) : Option WorkUnit :=
  if unitOk keys sp p0 rest (dirname k) then
    some ⟨dirname k, k :: (compsOf keys rest (dirname k)).flatten,
      sp.auxiliary, sp.labelOf k⟩
  else none

/-- Modelled from the spec: `resolve(keyStore, spec)`.  Every key is matched
against the primary pattern; matches are clustered by group (the key's
prefix, per the Glossary's "Group: the shared prefix portion"), in the order
groups first appear in the key enumeration.  SINGLE cardinality (one
pattern): every primary match directly produces one unit with that single
key.  MULTI cardinality: inside each cluster one representative per distinct
variant-capture value is kept (first-match order) and completed by
`mkMultiUnit`.  Units are returned grouped by group, within a group in
first-match order (step 6). -/
def resolve (keys : List String) (sp : PatternSpec) : List WorkUnit :=
  match sp.patterns with
  | [] => []
  | p0 :: rest =>
    let prim := keys.filter (fun k => (reMatch p0 k).isSome)
    let clusters := groupRuns dirname prim
    match rest with
    | [] =>
        (clusters.map (fun cl => cl.map (fun k =>
          WorkUnit.mk (dirname k) [k] sp.auxiliary (sp.labelOf k)))).flatten
    | _ :: _ =>
        let vn := variantNames p0 rest
        (clusters.map (fun cl =>
          (dedupBy (variantOf p0 vn) cl).filterMap
            (mkMultiUnit keys sp p0 rest))).flatten

/-! ### The concrete digger fixtures of `src/cores/tests/test_digger.py` -/

/-- `ImpDigger1.itemspattern[0]`:
`^(?P<sect>da)/(?P<spc>(?:i|e))-(?P<fld>(?:p|m))-f$`. -/
def d1Pattern0 : Rx :=
  .seq (.grp "sect" (.lit "da".data))
    (.seq (.lit "/".data)
      (.seq (.grp "spc" (.alt (.lit "i".data) (.lit "e".data)))
        (.seq (.lit "-".data)
          (.seq (.grp "fld" (.alt (.lit "p".data) (.lit "m".data)))
            (.seq (.lit "-f".data) .eos)))))

/-- `ImpDigger1.numpattern`: `da/(?P<spc>(?:i|e))-(?P<fld>(?:p|m))-f`. -/
def d1NumPattern : Rx :=
  .seq (.lit "da/".data)
    (.seq (.grp "spc" (.alt (.lit "i".data) (.lit "e".data)))
      (.seq (.lit "-".data)
        (.seq (.grp "fld" (.alt (.lit "p".data) (.lit "m".data)))
          (.lit "-f".data))))

/-- `ImpDigger1.neededpattern`: `['da/(?:i|e)-(?:p|m)-f', 'g/c']`. -/
def d1Needed : List Rx :=
  [.seq (.lit "da/".data)
    (.seq (.alt (.lit "i".data) (.lit "e".data))
      (.seq (.lit "-".data)
        (.seq (.alt (.lit "p".data) (.lit "m".data)) (.lit "-f".data)))),
   .lit "g/c".data]

/-- `ImpDigger1._set_fignum`: `'%s_%s_f' % m.groups()` when `numpattern`
matches the first item, `'null'` otherwise. -/
def d1SetFignum (k : String) : String :=
  match reMatch d1NumPattern k with
  | some caps => String.intercalate "_" (caps.map Prod.snd) ++ "_f"
  | none => "null"

/-- The `PatternSpec` of `ImpDigger1` (`nitems = '?'`, a SINGLE-cardinality
spec: one pattern), with `commonpattern = ['g/c', 'his/n']`. -/
def d1Spec : PatternSpec :=
  ⟨[d1Pattern0], .explicitList d1Needed, ["g/c", "his/n"], d1SetFignum⟩

/-- `ImpDigger2.itemspattern`: `['^(?P<sect>his)/(?P<spc>(?:i|e))$',
'^(?P<sect>his)/n']`. -/
def d2Pattern0 : Rx :=
  .seq (.grp "sect" (.lit "his".data))
    (.seq (.lit "/".data)
      (.seq (.grp "spc" (.alt (.lit "i".data) (.lit "e".data))) .eos))

/-- The companion pattern of `ImpDigger2` (no `$`, so a prefix match). -/
def d2Pattern1 : Rx :=
  .seq (.grp "sect" (.lit "his".data)) (.lit "/n".data)

/-- `ImpDigger2.numpattern`: `his/(?P<spc>(?:i|e))`. -/
def d2NumPattern : Rx :=
  .seq (.lit "his/".data) (.grp "spc" (.alt (.lit "i".data) (.lit "e".data)))

/-- `ImpDigger2._set_fignum`: `'%s' % m.groups()` (the single capture) when
`numpattern` matches, `'null'` otherwise. -/
def d2SetFignum (k : String) : String :=
  match reMatch d2NumPattern k with
  | some caps => String.intercalate "_" (caps.map Prod.snd)
  | none => "null"

/-- The `PatternSpec` of `ImpDigger2` (`nitems = '+'`, MULTI cardinality;
`neededpattern = 'ALL'`, `commonpattern = ['g/c']`). -/
def d2Spec : PatternSpec :=
  ⟨[d2Pattern0, d2Pattern1], .all, ["g/c"], d2SetFignum⟩

/-- `ImpDigger3.itemspattern`: `['^(?P<sect>s\d)/(?P<fld>(?:p|a))$',
'^(?P<sect>s\d)/(?:x|y)$']`. -/
def d3Pattern0 : Rx :=
  .seq (.grp "sect" (.seq (.lit "s".data) .digit))
    (.seq (.lit "/".data)
      (.seq (.grp "fld" (.alt (.lit "p".data) (.lit "a".data))) .eos))

/-- The companion pattern of `ImpDigger3`. -/
def d3Pattern1 : Rx :=
  .seq (.grp "sect" (.seq (.lit "s".data) .digit))
    (.seq (.lit "/".data)
      (.seq (.alt (.lit "x".data) (.lit "y".data)) .eos))

/-- `ImpDigger3.neededpattern`: `['^(?P<sect>s\d)/(?P<fld>(?:p|a))$',
'^(?P<sect>s\d)/x$', '^(?P<sect>s\d)/y$']`. -/
def d3Needed : List Rx :=
  [d3Pattern0,
   .seq (.grp "sect" (.seq (.lit "s".data) .digit))
     (.seq (.lit "/x".data) .eos),
   .seq (.grp "sect" (.seq (.lit "s".data) .digit))
     (.seq (.lit "/y".data) .eos)]

/-- `ImpDigger3.numpattern`: `s\d/(?P<fld>(?:p|a))`. -/
def d3NumPattern : Rx :=
  .seq (.lit "s".data)
    (.seq .digit
      (.seq (.lit "/".data)
        (.grp "fld" (.alt (.lit "p".data) (.lit "a".data)))))

/-- `ImpDigger3._set_fignum`: `m.groupdict()['fld']` when `numpattern`
matches, `'null'` otherwise. -/
def d3SetFignum (k : String) : String :=
  match reMatch d3NumPattern k with
  | some caps =>
      match caps.find? (fun c => c.1 = "fld") with
      | some c => c.2
      | none => "null"
  | none => "null"

/-- The `PatternSpec` of `ImpDigger3` (`nitems = '+'`, MULTI cardinality,
explicit `neededpattern`, `commonpattern = ['g/c']`). -/
def d3Spec : PatternSpec :=
  ⟨[d3Pattern0, d3Pattern1], .explicitList d3Needed, ["g/c"], d3SetFignum⟩

/-- Modelled from the spec: the key set of the reference test fixture
(`PckLoader` of `src/cores/tests/__init__.py`, absent from the tree) used by
`TestDigger.test_one_key_2_one_core`. -/
def testKeys1 : List String :=
  ["da/i-p-f", "da/i-m-f", "da/e-p-f", "da/e-m-f", "g/c", "his/n"]

/-- Modelled from the spec: the fixture keys of
`TestDigger.test_one_addition_key_2_one_core`. -/
def testKeys2 : List String := ["his/i", "his/e", "his/n", "g/c"]

/-- Modelled from the spec: the fixture keys of
`TestDigger.test_multi_addition_key_2_one_core`. -/
def testKeys3 : List String :=
  ["s0/p", "s0/a", "s0/x", "s0/y", "s2/p", "s2/a", "s2/x", "s2/y", "g/c"]

/-! ### `BasePckLoader` (`src/loaders/base.py`)

The backing collaborator (`pathobj` plus `_special_get`) is abstracted as a
function `back : String → Except Unit (Option α)`: `.error` embeds a raised
`IOError`/`ValueError` during retrieval, `.ok v` a returned Python value
(`Option α`, with `none` embedding Python `None`).  The state carries the
fields the embedded methods read and write. -/

/-- The mutable state of a `BasePckLoader`: `path`, `datakeys`, sorted
`datagroups`, the `datagroups_exclude` configuration attribute, and the
per-instance `cache` dict. -/
structure PckLoaderState (α : Type) where
  path : String
  datakeys : List String
  datagroups : List String
  datagroups_exclude : List Rx
  cache : List (String × Option α)
deriving DecidableEq, Repr

/-- Outcome of `BasePckLoader.get`: a raised `KeyError` for a key outside
`datakeys`, or a re-raised backing failure. -/
inductive GetErr : Type where
  | keyNotFound
  | fetchFailed
deriving DecidableEq, Repr

/-- The embedding of `BasePckLoader.get`: raise `KeyError` when the key is
not in `datakeys`; return the cached value when present; otherwise fetch
from the backing collaborator, cache the value and return it (a failed fetch
is re-raised and caches nothing). -/
def pckGet {α : Type} (back : String → Except Unit (Option α))
    (st : PckLoaderState α) (key : String) :
    Except GetErr (Option α) × PckLoaderState α :=
  if key ∈ st.datakeys then
    match lookupAL st.cache key with
    | some v => (.ok v, st)
    | none =>
      match back key with
      | .ok v => (.ok v, { st with cache := insertAL st.cache key v })
      | .error _ => (.error .fetchFailed, st)
  else (.error .keyNotFound, st)

/-- The fetch loop of `BasePckLoader.get_many`: walk the todo index list,
fetching each key, writing the value at its position in `result` and
inserting it into the cache; a failing fetch re-raises at once, returning
the cache as mutated so far (the earlier inserts are kept). -/
def gmFetch {α : Type} (back : String → Except Unit (Option α))
    (keys : List String) :
    List Nat → List (Option α) → List (String × Option α) →
    Except Unit (List (Option α)) × List (String × Option α)
  | [], result, cache => (.ok result, cache)
  | i :: rest, result, cache =>
    match back (keys.getD i "") with
    | .error e => (.error e, cache)
    | .ok v =>
        gmFetch back keys rest (result.set i v)
          (insertAL cache (keys.getD i "") v)

/-- The prefilled result list of `BasePckLoader.get_many`:
`[self.cache[k] if k in self.cache else None for k in keys]`. -/
def gmResult {α : Type} (st : PckLoaderState α) (keys : List String) :
    List (Option α) :=
  keys.map (fun k =>
    match lookupAL st.cache k with
    | some v => v
    | none => none)

/-- The todo positions of `BasePckLoader.get_many`:
`[i for i, k in enumerate(result) if k is None]` — note a cached Python
`None` is indistinguishable from a cache miss here. -/
def gmTodo {α : Type} (st : PckLoaderState α) (keys : List String) :
    List Nat :=
  (List.range keys.length).filter (fun i =>
    match (gmResult st keys)[i]? with
    | some v => v.isNone
    | none => false)

/-- The embedding of `BasePckLoader.get_many`: prefill `result` from the
cache, compute the todo positions, return early on a full hit, otherwise run
the fetch loop (whose cache mutations survive even when it raises).  No
membership check against `datakeys` is made. -/
def pckGetMany {α : Type} (back : String → Except Unit (Option α))
    (st : PckLoaderState α) (keys : List String) :
    Except Unit (List (Option α)) × PckLoaderState α :=
  if (gmTodo st keys).isEmpty then (.ok (gmResult st keys), st)
  else
    ((gmFetch back keys (gmTodo st keys) (gmResult st keys) st.cache).1,
     { st with cache :=
        (gmFetch back keys (gmTodo st keys) (gmResult st keys) st.cache).2 })

/-- The embedding of `BasePckLoader.clear_cache`: `self.cache = {}`. -/
def clearCache {α : Type} (st : PckLoaderState α) : PckLoaderState α :=
  { st with cache := [] }

/-- The embedding of the non-raising path of `BasePckLoader.update` (the
fields the claims concern; `description` is omitted and `_special_open` is
abstracted into the `getkeys` enumeration the backing store reports):
`datakeys` is the backing enumeration as given (not sorted); the groups are
the distinct `dirname` prefixes of the datakeys minus the root `''`;
`datagroups_exclude` patterns remove matching groups (`pat.match`), the
excluded groups' keys are dropped from `datakeys` by `startswith`, the kept
groups are sorted, and the cache is reset to a fresh empty dict. -/
def pckUpdate {α : Type} (st : PckLoaderState α)
    (getkeys : List String) : PckLoaderState α :=
  let datakeys := getkeys
  let allgroups := ((datakeys.map dirname).dedup).filter (fun g => g ≠ "")
  let datagroups := allgroups.filter (fun g =>
    ¬ st.datagroups_exclude.any (fun p => (reMatch p g).isSome))
  let excgroups := allgroups.filter (fun g =>
    st.datagroups_exclude.any (fun p => (reMatch p g).isSome))
  let datakeys2 :=
    if excgroups.isEmpty then datakeys
    else datakeys.filter (fun k =>
      ¬ excgroups.any (fun g => strStartsWith g k))
  { st with datakeys := datakeys2,
            datagroups := sortKeys datagroups, cache := [] }

/-! ### `BaseRawLoader` (`src/loaders/base.py`) -/

/-- The state of a `BaseRawLoader`: `path`, the sorted filtered `filenames`
tuple and the `filenames_exclude` configuration attribute. -/
structure RawLoaderState : Type where
  path : String
  filenames : List String
  filenames_exclude : List Rx
deriving DecidableEq, Repr

/-- The embedding of the non-raising path of `BaseRawLoader.update`:
filenames reported by the backing store, minus those matching an exclusion
pattern (`pat.match`), sorted. -/
def rawUpdate (st : RawLoaderState) (getkeys : List String) : RawLoaderState :=
  { st with
    filenames := sortKeys (getkeys.filter (fun k =>
      ¬ st.filenames_exclude.any (fun p => (reMatch p k).isSome))) }

/-- The Python exception classes distinguished by `BaseRawLoader.get`:
the `KeyError` it raises itself, the `(IOError, ValueError)` pair its
`except` clause logs before re-raising, and any other exception type. -/
inductive PyExc : Type where
  | keyError
  | ioError
  | valueError
  | otherExc
deriving DecidableEq, Repr

/-- Whether an exception is caught by `except (IOError, ValueError)`. -/
def PyExc.isIOorValueError : PyExc → Bool
  | .ioError => true
  | .valueError => true
  | _ => false

/-- The embedding of `BaseRawLoader.get` used as a `with`-statement context
manager around a consumer `body`.  Output: the outcome, the acquired file
objects, the closed file objects, and the log of `(key, path)` error
entries.  Control flow of the source: raise `KeyError` before anything is
acquired when the key is not in `filenames`; on a fetch failure nothing was
acquired, the `except` clause logs the error (for `IOError`/`ValueError`
only) and re-raises, and the `finally` clause finds no `fileobj` to close;
on a successful fetch the file object is handed to the body, a body
exception is logged (same filter) and re-raised, and the `finally` clause
closes the file object on both the normal and the raising path. -/
def rawGet {β γ : Type} (sget : String → Except PyExc β)
    (st : RawLoaderState) (key : String) (body : β → Except PyExc γ) :
    Except PyExc γ × List β × List β × List (String × String) :=
  if key ∈ st.filenames then
    match sget key with
    | .error e =>
        (.error e, [], [],
          if e.isIOorValueError then [(key, st.path)] else [])
    | .ok fileobj =>
        match body fileobj with
        | .ok v => (.ok v, [fileobj], [fileobj], [])
        | .error e =>
            (.error e, [fileobj], [fileobj],
              if e.isIOorValueError then [(key, st.path)] else [])
  else (.error .keyError, [], [], [])

/-! ### Helper lemmas: association lists -/

theorem lookupAL_insertAL_self {β : Type} (l : List (String × β))
    (k : String) (v : β) : lookupAL (insertAL l k v) k = some v := by
  induction l with
  | nil => simp [insertAL, lookupAL]
  | cons p t ih =>
    obtain ⟨k2, w⟩ := p
    by_cases hk : k2 = k
    · simp [insertAL, lookupAL, hk]
    · simp [insertAL, lookupAL, hk, ih]

theorem lookupAL_insertAL_ne {β : Type} (l : List (String × β))
    (k k2 : String) (v : β) (h : k2 ≠ k) :
    lookupAL (insertAL l k v) k2 = lookupAL l k2 := by
  induction l with
  | nil => simp [insertAL, lookupAL, Ne.symm h]
  | cons p t ih =>
    obtain ⟨k3, w⟩ := p
    by_cases hk : k3 = k
    · subst hk
      by_cases hk2 : k3 = k2
      · exact absurd hk2.symm (by simpa using h)
      · simp [insertAL, lookupAL, hk2, Ne.symm h]
    · by_cases hk2 : k3 = k2 <;> simp [insertAL, lookupAL, hk, hk2, h, ih]

/-! ### Helper lemmas: sorting -/

theorem sortKeys_perm (l : List String) : (sortKeys l).Perm l :=
  List.perm_insertionSort keyLe l

theorem sortKeys_sorted (l : List String) : (sortKeys l).Sorted keyLe :=
  List.sorted_insertionSort keyLe l

theorem mem_sortKeys {k : String} {l : List String} :
    k ∈ sortKeys l ↔ k ∈ l := (sortKeys_perm l).mem_iff

theorem sortKeys_eq_of_perm {l1 l2 : List String} (h : l1.Perm l2) :
    sortKeys l1 = sortKeys l2 :=
  List.eq_of_perm_of_sorted
    ((sortKeys_perm l1).trans (h.trans (sortKeys_perm l2).symm))
    (sortKeys_sorted l1) (sortKeys_sorted l2)

/-! ### Helper lemmas: `dirname` is a prefix of the key -/

theorem dirnameData_prefix (cs : List Char) : dirnameData cs <+: cs := by
  unfold dirnameData
  set i := match cs.reverse.findIdx? (fun c => c == '/') with
    | some j => cs.length - j
    | none => 0 with hi
  by_cases hc :
      (!(cs.take i).isEmpty && (cs.take i).any (fun c => c != '/')) = true
  · simp only [hc, if_true]
    have h2 : ((cs.take i).reverse.dropWhile (fun c => c == '/')).reverse <+:
        cs.take i := by
      rw [← List.reverse_suffix]
      simpa using List.dropWhile_suffix (l := (cs.take i).reverse)
        (fun c => c == '/')
    exact h2.trans (List.take_prefix i cs)
  · simp only [hc, if_false]
    exact List.take_prefix i cs

theorem dirname_isPrefix (k : String) : strStartsWith (dirname k) k = true := by
  rw [strStartsWith, List.isPrefixOf_iff_prefix]
  exact dirnameData_prefix k.data

/-! ### Helper lemmas: `groupRuns` and `dedupBy` -/

theorem groupRunsAux_flatten_perm {α β : Type} [DecidableEq β] (f : α → β) :
    ∀ (n : Nat) (l : List α), l.length ≤ n →
    ((groupRunsAux f n l).flatten).Perm l := by
  intro n
  induction n with
  | zero =>
    intro l h
    have hl : l = [] := List.length_eq_zero.mp (Nat.le_zero.mp h)
    subst hl
    simp [groupRunsAux]
  | succ n ih =>
    intro l h
    match l with
    | [] => simp [groupRunsAux]
    | x :: xs =>
      simp only [groupRunsAux, List.flatten_cons, List.cons_append]
      refine List.Perm.cons x ?_
      have hxs : xs.length ≤ n := by
        simpa using Nat.le_of_succ_le_succ h
      have hlen : (xs.filter (fun y => ¬ (f y = f x))).length ≤ n :=
        le_trans (List.length_filter_le _ xs) hxs
      have h1 := ih (xs.filter (fun y => ¬ (f y = f x))) hlen
      refine (List.Perm.append_left (xs.filter (fun y => f y = f x)) h1).trans ?_
      have h3 : (fun y => decide ¬ (f y = f x)) =
          (fun y => !(decide (f y = f x))) := by
        funext y
        exact decide_not
      simpa [h3] using List.filter_append_perm (fun y => f y = f x) xs

theorem groupRuns_flatten_perm {α β : Type} [DecidableEq β] (f : α → β)
    (l : List α) : ((groupRuns f l).flatten).Perm l :=
  groupRunsAux_flatten_perm f l.length l le_rfl

theorem dedupByAux_subset {α β : Type} [DecidableEq β] (f : α → β) :
    ∀ (n : Nat) (l : List α) (x : α), x ∈ dedupByAux f n l → x ∈ l := by
  intro n
  induction n with
  | zero => intro l x hx; simp [dedupByAux] at hx
  | succ n ih =>
    intro l x hx
    match l with
    | [] => simp [dedupByAux] at hx
    | y :: ys =>
      simp only [dedupByAux, List.mem_cons] at hx
      rcases hx with hx | hx
      · exact hx ▸ List.mem_cons_self y ys
      · exact List.mem_cons_of_mem y (List.mem_of_mem_filter (ih _ x hx))

theorem dedupByAux_map_nodup {α β : Type} [DecidableEq β] (f : α → β) :
    ∀ (n : Nat) (l : List α), ((dedupByAux f n l).map f).Nodup := by
  intro n
  induction n with
  | zero => intro l; simp [dedupByAux]
  | succ n ih =>
    intro l
    match l with
    | [] => simp [dedupByAux]
    | y :: ys =>
      simp only [dedupByAux, List.map_cons, List.nodup_cons]
      refine ⟨?_, ih _⟩
      intro hmem
      obtain ⟨z, hz, hfz⟩ := List.mem_map.mp hmem
      have hzf := dedupByAux_subset f n _ z hz
      have := (List.mem_filter.mp hzf).2
      simp only [decide_eq_true_eq] at this
      exact this hfz

theorem mem_map_dedupByAux {α β : Type} [DecidableEq β] (f : α → β) :
    ∀ (n : Nat) (l : List α), l.length ≤ n →
    ∀ b : β, (b ∈ (dedupByAux f n l).map f ↔ b ∈ l.map f) := by
  intro n
  induction n with
  | zero =>
    intro l h b
    have hl : l = [] := List.length_eq_zero.mp (Nat.le_zero.mp h)
    subst hl
    simp [dedupByAux]
  | succ n ih =>
    intro l h b
    match l with
    | [] => simp [dedupByAux]
    | y :: ys =>
      have hys : ys.length ≤ n := by simpa using Nat.le_of_succ_le_succ h
      have hlen : (ys.filter (fun z => ¬ (f z = f y))).length ≤ n :=
        le_trans (List.length_filter_le _ ys) hys
      simp only [dedupByAux, List.map_cons, List.mem_cons]
      constructor
      · intro hb
        rcases hb with hb | hb
        · exact Or.inl hb
        · obtain ⟨z, hz, hfz⟩ := List.mem_map.mp hb
          exact Or.inr (List.mem_map.mpr
            ⟨z, List.mem_of_mem_filter (dedupByAux_subset f n _ z hz), hfz⟩)
      · intro hb
        rcases hb with hb | hb
        · exact Or.inl hb
        · obtain ⟨z, hz, hfz⟩ := List.mem_map.mp hb
          by_cases hzy : f z = f y
          · exact Or.inl (by rw [← hfz, hzy])
          · refine Or.inr (((ih _ hlen) b).mpr ?_)
            exact List.mem_map.mpr
              ⟨z, List.mem_filter.mpr ⟨hz, by simpa using hzy⟩, hfz⟩

theorem length_dedupBy {α β : Type} [DecidableEq β] (f : α → β)
    (l : List α) : (dedupBy f l).length = (l.map f).dedup.length := by
  have h1 : (dedupBy f l).length = ((dedupBy f l).map f).length :=
    (List.length_map _ _).symm
  have h2 : ((dedupBy f l).map f).toFinset.card =
      ((dedupBy f l).map f).length :=
    List.toFinset_card_of_nodup (dedupByAux_map_nodup f l.length l)
  have h3 : ((dedupBy f l).map f).toFinset = (l.map f).toFinset := by
    ext b
    simp only [List.mem_toFinset]
    exact mem_map_dedupByAux f l.length l le_rfl b
  rw [h1, ← h2, h3, List.card_toFinset]

theorem length_filterMap_all_some {α γ : Type} (mk : α → Option γ) :
    ∀ l : List α, (∀ x ∈ l, (mk x).isSome) →
    (l.filterMap mk).length = l.length := by
  intro l
  induction l with
  | nil => simp
  | cons x xs ih =>
    intro h
    cases hmk : mk x with
    | none =>
      have := h x (List.mem_cons_self x xs)
      simp [hmk] at this
    | some u =>
      simp only [List.filterMap_cons, hmk, List.length_cons]
      rw [ih (fun z hz => h z (List.mem_cons_of_mem x hz))]

/-! ### Helper lemmas: the resolver -/

theorem mkMultiUnit_some {keys : List String} {sp : PatternSpec} {p0 : Rx}
    {rest : List Rx} {k : String} {u : WorkUnit}
    (h : mkMultiUnit keys sp p0 rest k = some u) :
    u = ⟨dirname k, k :: (compsOf keys rest (dirname k)).flatten,
      sp.auxiliary, sp.labelOf k⟩ ∧
      unitOk keys sp p0 rest (dirname k) = true := by
  unfold mkMultiUnit at h
  split at h
  · next hok => exact ⟨((Option.some.injEq _ _).mp h).symm, hok⟩
  · exact absurd h (by simp)

theorem groupRunsAux_proc_filter {α β γ : Type} [DecidableEq β]
    (f : α → β) (proc : List α → List γ) (gf : γ → β) (g : β)
    (hnil : proc [] = [])
    (hp : ∀ (gc : β) (cl : List α), (∀ x ∈ cl, f x = gc) →
      (proc cl).filter (fun u => gf u = g) =
        if gc = g then proc cl else []) :
    ∀ (n : Nat) (l : List α), l.length ≤ n →
    (((groupRunsAux f n l).map proc).flatten).filter (fun u => gf u = g)
      = proc (l.filter (fun y => f y = g)) := by
  intro n
  induction n with
  | zero =>
    intro l h
    have hl : l = [] := List.length_eq_zero.mp (Nat.le_zero.mp h)
    subst hl
    simp [groupRunsAux, hnil]
  | succ n ih =>
    intro l h
    match l with
    | [] => simp [groupRunsAux, hnil]
    | x :: xs =>
      have hxs : xs.length ≤ n := by simpa using Nat.le_of_succ_le_succ h
      have hlen : (xs.filter (fun y => ¬ (f y = f x))).length ≤ n :=
        le_trans (List.length_filter_le _ xs) hxs
      simp only [groupRunsAux, List.map_cons, List.flatten_cons,
        List.filter_append]
      have hconst : ∀ y ∈ x :: xs.filter (fun y => f y = f x), f y = f x := by
        intro y hy
        rcases List.mem_cons.mp hy with hy | hy
        · rw [hy]
        · have := (List.mem_filter.mp hy).2
          simpa using this
      rw [hp (f x) _ hconst, ih _ hlen]
      by_cases hfx : f x = g
      · subst hfx
        rw [if_pos rfl]
        have hinner : (xs.filter (fun y => ¬ (f y = f x))).filter
            (fun y => f y = f x) = [] := by
          rw [List.filter_eq_nil_iff]
          intro a ha
          have := (List.mem_filter.mp ha).2
          simp only [decide_eq_true_eq] at this ⊢
          exact this
        rw [hinner, hnil]
        have houter : (x :: xs).filter (fun y => f y = f x)
            = x :: xs.filter (fun y => f y = f x) := by
          rw [List.filter_cons, if_pos (by simp)]
        rw [houter, List.append_nil]
      · rw [if_neg hfx]
        have hinner : (xs.filter (fun y => ¬ (f y = f x))).filter
            (fun y => f y = g) = xs.filter (fun y => f y = g) := by
          rw [List.filter_filter]
          refine List.filter_congr ?_
          intro y _
          by_cases hyg : f y = g
          · have hnyx : ¬ (g = f x) := fun hh => hfx hh.symm
            simp [hyg, hnyx]
          · simp [hyg]
        have houter : (x :: xs).filter (fun y => f y = g)
            = xs.filter (fun y => f y = g) := by
          rw [List.filter_cons, if_neg (by simpa using hfx)]
        rw [hinner, houter, List.nil_append]

theorem resolve_multi_filter_group (keys : List String) (p0 p1 : Rx)
    (ps : List Rx) (comp : Completeness) (aux : List String)
    (lab : String → String) (g : String) :
    (resolve keys ⟨p0 :: p1 :: ps, comp, aux, lab⟩).filter
        (fun u => u.group = g)
      = (dedupBy (variantOf p0 (variantNames p0 (p1 :: ps)))
          ((keys.filter (fun k => (reMatch p0 k).isSome)).filter
            (fun k => dirname k = g))).filterMap
          (mkMultiUnit keys ⟨p0 :: p1 :: ps, comp, aux, lab⟩ p0
            (p1 :: ps)) := by
  have hp : ∀ (gc : String) (cl : List String),
      (∀ x ∈ cl, dirname x = gc) →
      ((dedupBy (variantOf p0 (variantNames p0 (p1 :: ps))) cl).filterMap
          (mkMultiUnit keys ⟨p0 :: p1 :: ps, comp, aux, lab⟩ p0
            (p1 :: ps))).filter (fun u => u.group = g)
        = if gc = g then
            (dedupBy (variantOf p0 (variantNames p0 (p1 :: ps))) cl).filterMap
              (mkMultiUnit keys ⟨p0 :: p1 :: ps, comp, aux, lab⟩ p0
                (p1 :: ps))
          else [] := by
    intro gc cl hcl
    have hgrp : ∀ u ∈ (dedupBy (variantOf p0 (variantNames p0 (p1 :: ps)))
        cl).filterMap (mkMultiUnit keys ⟨p0 :: p1 :: ps, comp, aux, lab⟩ p0
          (p1 :: ps)), u.group = gc := by
      intro u hu
      obtain ⟨k, hk, hmk⟩ := List.mem_filterMap.mp hu
      have hu2 := (mkMultiUnit_some hmk).1
      have hkcl : k ∈ cl := dedupByAux_subset _ _ _ _ hk
      rw [hu2]
      exact hcl k hkcl
    by_cases hgc : gc = g
    · rw [if_pos hgc]
      refine List.filter_eq_self.mpr ?_
      intro u hu
      simp [hgrp u hu, hgc]
    · rw [if_neg hgc]
      refine List.filter_eq_nil_iff.mpr ?_
      intro u hu
      simp only [decide_eq_true_eq]
      rw [hgrp u hu]
      exact hgc
  simp only [resolve, groupRuns]
  exact groupRunsAux_proc_filter dirname _ WorkUnit.group g rfl hp _ _ le_rfl

/-! ### Claim theorems -/

/-- C1: for a SINGLE-cardinality spec (one pattern) on a duplicate-free
KeyStore, `resolve` returns exactly one WorkUnit per key matched by the
primary pattern, each with a single primary key, no two units sharing a
primary key; concretely, on the `ImpDigger1` fixture it returns the four
expected units, the one for `"da/i-p-f"` carrying group `"da"`, primary
keys `["da/i-p-f"]`, auxiliary keys `["g/c", "his/n"]` and label
`"i_p_f"`. -/
theorem C1_single_resolve (p0 : Rx) (comp : Completeness) (aux : List String)
    (lab : String → String) (keys : List String) (hnd : keys.Nodup) :
    (resolve keys ⟨[p0], comp, aux, lab⟩).length
        = (keys.filter (fun k => (reMatch p0 k).isSome)).length ∧
    (∀ u ∈ resolve keys ⟨[p0], comp, aux, lab⟩, u.primaryKeys.length = 1) ∧
    ((resolve keys ⟨[p0], comp, aux, lab⟩).map
        (fun u => u.primaryKeys)).Nodup ∧
    resolve testKeys1 d1Spec =
      [⟨"da", ["da/i-p-f"], ["g/c", "his/n"], "i_p_f"⟩,
       ⟨"da", ["da/i-m-f"], ["g/c", "his/n"], "i_m_f"⟩,
       ⟨"da", ["da/e-p-f"], ["g/c", "his/n"], "e_p_f"⟩,
       ⟨"da", ["da/e-m-f"], ["g/c", "his/n"], "e_m_f"⟩] := by
  have hres : resolve keys ⟨[p0], comp, aux, lab⟩
      = ((groupRuns dirname
          (keys.filter (fun k => (reMatch p0 k).isSome))).flatten).map
          (fun k => WorkUnit.mk (dirname k) [k] aux (lab k)) := by
    simp only [resolve]
    exact (List.map_flatten _ _).symm
  have hperm : ((groupRuns dirname
      (keys.filter (fun k => (reMatch p0 k).isSome))).flatten).Perm
        (keys.filter (fun k => (reMatch p0 k).isSome)) :=
    groupRuns_flatten_perm _ _
  refine ⟨?_, ?_, ?_, by decide⟩
  · rw [hres, List.length_map]
    exact hperm.length_eq
  · intro u hu
    rw [hres] at hu
    obtain ⟨k, _, hk⟩ := List.mem_map.mp hu
    rw [← hk]
    rfl
  · rw [hres, List.map_map]
    have hinj : Function.Injective (fun k : String => [k]) := by
      intro a b hab
      simpa using hab
    have hnodup : ((keys.filter
        (fun k => (reMatch p0 k).isSome)).map (fun k => [k])).Nodup :=
      List.Nodup.map hinj (hnd.filter _)
    have hpermmap := hperm.map (fun k : String => [k])
    exact (hpermmap.nodup_iff).mpr hnodup

/-- Witness for C1: instantiated on the `ImpDigger1` fixture, whose key list
is duplicate-free; the unit count equals the four primary matches. -/
theorem C1_single_resolve_witness :
    testKeys1.Nodup ∧ (resolve testKeys1 d1Spec).length = 4 := by
  refine ⟨by decide, ?_⟩
  have hd : d1Spec = ⟨[d1Pattern0], Completeness.explicitList d1Needed,
      ["g/c", "his/n"], d1SetFignum⟩ := rfl
  rw [hd]
  have h := (C1_single_resolve d1Pattern0 (Completeness.explicitList d1Needed)
    ["g/c", "his/n"] d1SetFignum testKeys1 (by decide)).1
  rw [h]
  decide

/-- C2: for a MULTI-cardinality spec with completeness `ALL`, a group in
which some required companion pattern has no match yields no WorkUnit at
all, while a group satisfying every companion pattern yields exactly one
WorkUnit per distinct variant-capture value of its primary matches;
concretely, on the `ImpDigger2` fixture `resolve` returns exactly the two
expected units, with primary keys `["his/i", "his/n"]` and
`["his/e", "his/n"]`. -/
theorem C2_multi_all_completeness (p0 p1 : Rx) (ps : List Rx)
    (aux : List String) (lab : String → String) (keys : List String)
    (g : String) :
    ((∃ p ∈ p1 :: ps, ∀ k ∈ keys, dirname k = g → reMatch p k = none) →
      ∀ u ∈ resolve keys ⟨p0 :: p1 :: ps, .all, aux, lab⟩, u.group ≠ g) ∧
    ((∀ p ∈ p1 :: ps, ∃ k ∈ keys, dirname k = g ∧ (reMatch p k).isSome) →
      ((resolve keys ⟨p0 :: p1 :: ps, .all, aux, lab⟩).filter
          (fun u => u.group = g)).length
        = (((keys.filter (fun k => (reMatch p0 k).isSome)).filter
              (fun k => dirname k = g)).map
            (variantOf p0 (variantNames p0 (p1 :: ps)))).dedup.length) ∧
    resolve testKeys2 d2Spec =
      [⟨"his", ["his/i", "his/n"], ["g/c"], "i"⟩,
       ⟨"his", ["his/e", "his/n"], ["g/c"], "e"⟩] := by
  have hfg := resolve_multi_filter_group keys p0 p1 ps .all aux lab g
  refine ⟨?_, ?_, by decide⟩
  · rintro ⟨p, hpmem, hnone⟩ u hu hgeq
    have humem : u ∈ (resolve keys ⟨p0 :: p1 :: ps, .all, aux, lab⟩).filter
        (fun u => u.group = g) :=
      List.mem_filter.mpr ⟨hu, by simp [hgeq]⟩
    rw [hfg] at humem
    obtain ⟨k, hk, hmk⟩ := List.mem_filterMap.mp humem
    have hkg : dirname k = g := by
      have := (List.mem_filter.mp (dedupByAux_subset _ _ _ _ hk)).2
      simpa using this
    have hok := (mkMultiUnit_some hmk).2
    rw [hkg] at hok
    unfold unitOk at hok
    have hempty : (keys.filter (fun x =>
        dirname x == g && (reMatch p x).isSome)) = [] := by
      rw [List.filter_eq_nil_iff]
      intro x hx
      by_cases hdx : dirname x = g
      · have := hnone x hx hdx
        simp [this, hdx]
      · simp [hdx]
    have hcmem : ([] : List String) ∈ compsOf keys (p1 :: ps) g := by
      unfold compsOf
      refine List.mem_map.mpr ⟨p, hpmem, ?_⟩
      rw [hempty]
      rfl
    have := (List.all_eq_true.mp hok) [] hcmem
    simp at this
  · intro hsat
    rw [hfg]
    have hsome : ∀ k ∈ dedupBy (variantOf p0 (variantNames p0 (p1 :: ps)))
        ((keys.filter (fun k => (reMatch p0 k).isSome)).filter
          (fun k => dirname k = g)),
        (mkMultiUnit keys ⟨p0 :: p1 :: ps, .all, aux, lab⟩ p0
          (p1 :: ps) k).isSome := by
      intro k hk
      have hkg : dirname k = g := by
        have := (List.mem_filter.mp (dedupByAux_subset _ _ _ _ hk)).2
        simpa using this
      have hok : unitOk keys ⟨p0 :: p1 :: ps, .all, aux, lab⟩ p0
          (p1 :: ps) (dirname k) = true := by
        rw [hkg]
        unfold unitOk
        refine List.all_eq_true.mpr ?_
        intro c hc
        obtain ⟨p, hpmem, hpc⟩ := List.mem_map.mp hc
        obtain ⟨x, hxk, hxg, hxm⟩ := hsat p hpmem
        have hxf : x ∈ keys.filter (fun x =>
            dirname x == g && (reMatch p x).isSome) :=
          List.mem_filter.mpr ⟨hxk, by simp [hxg, hxm]⟩
        have hxs : x ∈ sortKeys (keys.filter (fun x =>
            dirname x == g && (reMatch p x).isSome)) := mem_sortKeys.mpr hxf
        have hcne : c ≠ [] := by
          rw [← hpc]
          exact List.ne_nil_of_mem hxs
        rcases c with _ | ⟨y, ys⟩
        · exact absurd rfl hcne
        · rfl
      unfold mkMultiUnit
      rw [hok]
      simp
    rw [length_filterMap_all_some _ _ hsome, length_dedupBy]

/-- Witness for C2: on the `ImpDigger2` fixture, group `"his"` satisfies all
patterns and gets exactly one unit per distinct variant (two: `i` and `e`),
while a hypothetical group `"g"` (whose keys never match the companion
pattern) gets no unit. -/
theorem C2_multi_all_completeness_witness :
    ((resolve testKeys2 d2Spec).filter (fun u => u.group = "his")).length = 2 ∧
    ∀ u ∈ resolve testKeys2 d2Spec, u.group ≠ "g" := by
  have hd : d2Spec = ⟨[d2Pattern0, d2Pattern1], Completeness.all, ["g/c"],
      d2SetFignum⟩ := rfl
  constructor
  · rw [hd]
    have h := (C2_multi_all_completeness d2Pattern0 d2Pattern1 [] ["g/c"]
      d2SetFignum testKeys2 "his").2.1 (by decide)
    rw [h]
    decide
  · rw [hd]
    exact (C2_multi_all_completeness d2Pattern0 d2Pattern1 [] ["g/c"]
      d2SetFignum testKeys2 "g").1 (by decide)

/-- C3: under MULTI cardinality every emitted unit's primary key list is the
primary matched key followed by, for each companion pattern in order, all of
that pattern's matches inside the unit's group (sorted); in particular every
companion match of the cluster is included in `primaryKeys`.  Concretely, on
the `ImpDigger3` fixture `resolve` returns four units, each with three
primary keys (field key + `x` key + `y` key), two for group `s0` and two for
group `s2`. -/
theorem C3_companion_inclusion (p0 p1 : Rx) (ps : List Rx)
    (comp : Completeness) (aux : List String) (lab : String → String)
    (keys : List String) :
    (∀ u ∈ resolve keys ⟨p0 :: p1 :: ps, comp, aux, lab⟩,
      ∃ k, (reMatch p0 k).isSome ∧ dirname k = u.group ∧
        u.primaryKeys = k :: (compsOf keys (p1 :: ps) u.group).flatten ∧
        ∀ p ∈ p1 :: ps, ∀ x ∈ keys, dirname x = u.group →
          (reMatch p x).isSome → x ∈ u.primaryKeys) ∧
    resolve testKeys3 d3Spec =
      [⟨"s0", ["s0/p", "s0/x", "s0/y"], ["g/c"], "p"⟩,
       ⟨"s0", ["s0/a", "s0/x", "s0/y"], ["g/c"], "a"⟩,
       ⟨"s2", ["s2/p", "s2/x", "s2/y"], ["g/c"], "p"⟩,
       ⟨"s2", ["s2/a", "s2/x", "s2/y"], ["g/c"], "a"⟩] := by
  refine ⟨?_, by decide⟩
  intro u hu
  simp only [resolve] at hu
  obtain ⟨cu, hcu, hucu⟩ := List.mem_flatten.mp hu
  obtain ⟨cl, hcl, hclu⟩ := List.mem_map.mp hcu
  rw [← hclu] at hucu
  obtain ⟨k, hkdd, hmk⟩ := List.mem_filterMap.mp hucu
  have hkcl : k ∈ cl := dedupByAux_subset _ _ _ _ hkdd
  have hkprim : k ∈ keys.filter (fun k => (reMatch p0 k).isSome) := by
    have hkfl : k ∈ (groupRuns dirname
        (keys.filter (fun k => (reMatch p0 k).isSome))).flatten :=
      List.mem_flatten.mpr ⟨cl, hcl, hkcl⟩
    exact (groupRuns_flatten_perm _ _).mem_iff.mp hkfl
  have hu2 := (mkMultiUnit_some hmk).1
  refine ⟨k, (List.mem_filter.mp hkprim).2, ?_, ?_, ?_⟩
  · rw [hu2]
  · rw [hu2]
  · intro p hp x hxk hxg hxm
    rw [hu2]
    simp only [List.mem_cons]
    right
    refine List.mem_flatten.mpr ⟨sortKeys (keys.filter (fun y =>
      dirname y == u.group && (reMatch p y).isSome)), ?_, ?_⟩
    · unfold compsOf
      have hgg : u.group = dirname k := by rw [hu2]
      rw [hgg]
      exact List.mem_map.mpr ⟨p, hp, by rw [← hgg]⟩
    · refine mem_sortKeys.mpr (List.mem_filter.mpr ⟨hxk, by simp [hxg, hxm]⟩)

/-- Witness for C3: the first unit of the `ImpDigger3` fixture is in the
resolver output, so the structural description applies to it. -/
theorem C3_companion_inclusion_witness :
    (⟨"s0", ["s0/p", "s0/x", "s0/y"], ["g/c"], "p"⟩ : WorkUnit) ∈
        resolve testKeys3 d3Spec ∧
    ∃ k, (reMatch d3Pattern0 k).isSome ∧
      dirname k = (⟨"s0", ["s0/p", "s0/x", "s0/y"], ["g/c"],
        "p"⟩ : WorkUnit).group ∧
      (⟨"s0", ["s0/p", "s0/x", "s0/y"], ["g/c"], "p"⟩ : WorkUnit).primaryKeys
        = k :: (compsOf testKeys3 [d3Pattern1] "s0").flatten ∧
      ∀ p ∈ [d3Pattern1], ∀ x ∈ testKeys3, dirname x = "s0" →
        (reMatch p x).isSome →
        x ∈ (⟨"s0", ["s0/p", "s0/x", "s0/y"], ["g/c"],
          "p"⟩ : WorkUnit).primaryKeys := by
  have hmem : (⟨"s0", ["s0/p", "s0/x", "s0/y"], ["g/c"], "p"⟩ : WorkUnit) ∈
      resolve testKeys3 d3Spec := by decide
  have hd : d3Spec = ⟨[d3Pattern0, d3Pattern1],
      Completeness.explicitList d3Needed, ["g/c"], d3SetFignum⟩ := rfl
  have h := (C3_companion_inclusion d3Pattern0 d3Pattern1 []
    (Completeness.explicitList d3Needed) ["g/c"] d3SetFignum testKeys3).1
    _ (hd ▸ hmem)
  exact ⟨hmem, h⟩

/-- C4: `BasePckLoader.get` raises `KeyError` for a key outside `datakeys`;
for a present uncached key the first call fetches the value from the backing
collaborator and caches it; for a cached key it returns the cached value
with an unchanged state and without consulting the backing collaborator at
all (the result is the same for every backing function); consequently a
second call after a successful first fetch returns the same value without
re-fetching. -/
theorem C4_get_cache_semantics {α : Type}
    (back : String → Except Unit (Option α)) (st : PckLoaderState α)
    (key : String) :
    (key ∉ st.datakeys → pckGet back st key = (.error .keyNotFound, st)) ∧
    (∀ v, key ∈ st.datakeys → lookupAL st.cache key = none →
      back key = .ok v →
      pckGet back st key =
        (.ok v, { st with cache := insertAL st.cache key v }) ∧
      pckGet back (pckGet back st key).2 key =
        (.ok v, { st with cache := insertAL st.cache key v })) ∧
    (∀ v, key ∈ st.datakeys → lookupAL st.cache key = some v →
      ∀ back2 : String → Except Unit (Option α),
        pckGet back2 st key = (.ok v, st)) := by
  refine ⟨?_, ?_, ?_⟩
  · intro hk
    unfold pckGet
    rw [if_neg hk]
  · intro v hk hc hb
    have h1 : pckGet back st key =
        (.ok v, { st with cache := insertAL st.cache key v }) := by
      unfold pckGet
      rw [if_pos hk, hc, hb]
    refine ⟨h1, ?_⟩
    rw [h1]
    unfold pckGet
    rw [if_pos hk]
    rw [show lookupAL (insertAL st.cache key v) key = some v from
      lookupAL_insertAL_self _ _ _]
  · intro v hk hc back2
    unfold pckGet
    rw [if_pos hk, hc]

/-- Witness for C4: a one-key loader over an `Int` backing store — the
absent key fails, the present key is fetched once and then served from the
cache. -/
theorem C4_get_cache_semantics_witness :
    (pckGet (fun _ => Except.ok (some (5 : Int)))
        ⟨"p", ["k"], [], [], []⟩ "absent").1 = .error .keyNotFound ∧
    (pckGet (fun _ => Except.ok (some (5 : Int)))
        ⟨"p", ["k"], [], [], []⟩ "k").1 = .ok (some 5) := by
  have h1 := (C4_get_cache_semantics (fun _ => Except.ok (some (5 : Int)))
    ⟨"p", ["k"], [], [], []⟩ "absent").1 (by decide)
  have h2 := ((C4_get_cache_semantics (fun _ => Except.ok (some (5 : Int)))
    ⟨"p", ["k"], [], [], []⟩ "k").2.1 (some 5) (by decide) rfl rfl).1
  exact ⟨by rw [h1], by rw [h2]⟩

/-- C9: `BaseRawLoader.get` closes exactly what it acquired on every exit
path (normal completion, an exception from the consuming body, a failed
fetch — where nothing was acquired and nothing needs closing); a fetch
failure of the `IOError`/`ValueError` family is logged with the key and
path and the error is re-raised unchanged (never swallowed); a key missing
from `filenames` raises `KeyError` before anything is acquired. -/
theorem C9_rawget_scoped_release {β γ : Type}
    (sget : String → Except PyExc β) (st : RawLoaderState) (key : String)
    (body : β → Except PyExc γ) :
    ((rawGet sget st key body).2.2.1 = (rawGet sget st key body).2.1) ∧
    (∀ e, key ∈ st.filenames → sget key = .error e →
      (rawGet sget st key body).1 = .error e ∧
      (rawGet sget st key body).2.1 = [] ∧
      (e.isIOorValueError = true →
        (rawGet sget st key body).2.2.2 = [(key, st.path)])) ∧
    (∀ fo, key ∈ st.filenames → sget key = .ok fo →
      (rawGet sget st key body).2.1 = [fo] ∧
      (rawGet sget st key body).1 = body fo ∧
      (∀ e, body fo = .error e → e.isIOorValueError = true →
        (rawGet sget st key body).2.2.2 = [(key, st.path)])) ∧
    (key ∉ st.filenames →
      (rawGet sget st key body).1 = .error .keyError ∧
      (rawGet sget st key body).2.1 = []) := by
  refine ⟨?_, ?_, ?_, ?_⟩
  · unfold rawGet
    by_cases hk : key ∈ st.filenames
    · rw [if_pos hk]
      cases hs : sget key with
      | error e => rfl
      | ok fo =>
        cases hb : body fo with
        | ok v => simp [hb]
        | error e => simp [hb]
    · rw [if_neg hk]
  · intro e hk hs
    unfold rawGet
    rw [if_pos hk, hs]
    exact ⟨rfl, rfl, fun hio => by simp [hio]⟩
  · intro fo hk hs
    unfold rawGet
    rw [if_pos hk, hs]
    cases hb : body fo with
    | ok v =>
      exact ⟨by simp [hb], by simp [hb], fun e he => by simp [hb] at he⟩
    | error e2 =>
      refine ⟨by simp [hb], by simp [hb], fun e he hio => ?_⟩
      injection he with hee
      subst hee
      simp [hb, hio]
  · intro hk
    unfold rawGet
    rw [if_neg hk]
    exact ⟨rfl, rfl⟩

/-- Witness for C9: a concrete raw loader holding one file; a successful
fetch with a succeeding body closes the acquired object, and a fetch that
raises `IOError` is logged with `(key, path)`, re-raised, and closes
nothing. -/
theorem C9_rawget_scoped_release_witness :
    (rawGet (fun _ => Except.ok (0 : Int)) ⟨"p", ["f"], []⟩ "f"
      (fun fo => Except.ok fo)).2.2.1 = [(0 : Int)] ∧
    (rawGet (fun _ => Except.error PyExc.ioError) ⟨"p", ["f"], []⟩ "f"
      (fun fo => Except.ok (fo : Int))).1 = .error .ioError ∧
    (rawGet (fun _ => Except.error PyExc.ioError) ⟨"p", ["f"], []⟩ "f"
      (fun fo => Except.ok (fo : Int))).2.2.2 = [("f", "p")] := by
  have h1 := (C9_rawget_scoped_release (fun _ => Except.ok (0 : Int))
    ⟨"p", ["f"], []⟩ "f" (fun fo => Except.ok fo))
  have h2 := (C9_rawget_scoped_release (fun _ => Except.error PyExc.ioError)
    ⟨"p", ["f"], []⟩ "f" (fun fo => Except.ok (fo : Int))).2.1
    PyExc.ioError (by decide) rfl
  refine ⟨?_, h2.1, h2.2.2 rfl⟩
  rw [h1.1]
  exact ((h1.2.2.1 0 (by decide) rfl).1)

/-! ### Helper lemmas: the `get_many` fetch loop -/

theorem gmFetch_cache_pres {α : Type} (back : String → Except Unit (Option α))
    (keys : List String) :
    ∀ (todo : List Nat) (result : List (Option α))
      (cache : List (String × Option α)) (k : String),
      (∀ i ∈ todo, keys.getD i "" ≠ k) →
      lookupAL (gmFetch back keys todo result cache).2 k =
        lookupAL cache k := by
  intro todo
  induction todo with
  | nil => intro result cache k _; rfl
  | cons i rest ih =>
    intro result cache k h
    have hrest : ∀ j ∈ rest, keys.getD j "" ≠ k :=
      fun j hj => h j (List.mem_cons_of_mem i hj)
    have hik : k ≠ keys.getD i "" :=
      fun he => h i (List.mem_cons_self i rest) he.symm
    cases hb : back (keys.getD i "") with
    | error e => simp only [gmFetch, hb]
    | ok v =>
      simp only [gmFetch, hb]
      rw [ih _ _ k hrest]
      exact lookupAL_insertAL_ne _ _ _ _ hik

theorem gmFetch_cache_stable {α : Type}
    (back : String → Except Unit (Option α)) (keys : List String) :
    ∀ (todo : List Nat) (result : List (Option α))
      (cache : List (String × Option α)) (k : String) (v : Option α),
      lookupAL cache k = some v →
      (∀ i ∈ todo, keys.getD i "" = k → back k = .ok v) →
      lookupAL (gmFetch back keys todo result cache).2 k = some v := by
  intro todo
  induction todo with
  | nil => intro result cache k v hc _; exact hc
  | cons i rest ih =>
    intro result cache k v hc hall
    cases hb : back (keys.getD i "") with
    | error e => simp only [gmFetch, hb]; exact hc
    | ok w =>
      simp only [gmFetch, hb]
      refine ih _ _ k v ?_ (fun j hj hjk =>
        hall j (List.mem_cons_of_mem i hj) hjk)
      by_cases hki : keys.getD i "" = k
      · have hbv := hall i (List.mem_cons_self i rest) hki
        rw [hki] at hb
        rw [hbv] at hb
        injection hb with hww
        rw [hki, ← hww]
        exact lookupAL_insertAL_self _ _ _
      · rw [lookupAL_insertAL_ne _ _ _ _ (fun he => hki he.symm)]
        exact hc

theorem gmFetch_err {α : Type} (back : String → Except Unit (Option α))
    (keys : List String) :
    ∀ (todo : List Nat) (result : List (Option α))
      (cache : List (String × Option α)) (e : Unit)
      (c2 : List (String × Option α)),
      gmFetch back keys todo result cache = (.error e, c2) →
      ∃ done i rest2, todo = done ++ i :: rest2 ∧
        back (keys.getD i "") = .error e ∧
        ∀ j ∈ done, ∃ v, back (keys.getD j "") = .ok v ∧
          lookupAL c2 (keys.getD j "") = some v := by
  intro todo
  induction todo with
  | nil =>
    intro result cache e c2 h
    simp only [gmFetch, Prod.mk.injEq] at h
    exact absurd h.1 (by simp)
  | cons i rest ih =>
    intro result cache e c2 h
    cases e
    cases hb : back (keys.getD i "") with
    | error e2 =>
      cases e2
      refine ⟨[], i, rest, rfl, hb, by simp⟩
    | ok v =>
      simp only [gmFetch, hb] at h
      obtain ⟨done, i2, rest2, hsplit, hberr, hdone⟩ := ih _ _ _ _ h
      refine ⟨i :: done, i2, rest2, ?_, hberr, ?_⟩
      · rw [hsplit]
        rfl
      · intro j hj
        rcases List.mem_cons.mp hj with hji | hjd
        · refine ⟨v, by rw [hji]; exact hb, ?_⟩
          have hc2 : lookupAL (gmFetch back keys rest (result.set i v)
              (insertAL cache (keys.getD i "") v)).2 (keys.getD i "")
                = some v := by
            refine gmFetch_cache_stable back keys rest _ _ _ v
              (lookupAL_insertAL_self _ _ _) ?_
            intro j2 _ _
            exact hb
          rw [h] at hc2
          rw [hji]
          exact hc2
        · exact hdone j hjd

theorem gmFetch_ok {α : Type} (back : String → Except Unit (Option α))
    (keys : List String) :
    ∀ (todo : List Nat) (result : List (Option α))
      (cache : List (String × Option α)) (vs : List (Option α))
      (c2 : List (String × Option α)),
      todo.Nodup → (∀ i ∈ todo, i < result.length) →
      gmFetch back keys todo result cache = (.ok vs, c2) →
      vs.length = result.length ∧
      (∀ j : Nat, j ∉ todo → vs[j]? = result[j]?) ∧
      (∀ i ∈ todo, ∃ v, back (keys.getD i "") = .ok v ∧
        vs[i]? = some v) := by
  intro todo
  induction todo with
  | nil =>
    intro result cache vs c2 _ _ h
    simp only [gmFetch, Prod.mk.injEq] at h
    obtain ⟨h1, _⟩ := h
    injection h1 with hv
    subst hv
    exact ⟨rfl, fun j _ => rfl, fun i hi => absurd hi (List.not_mem_nil i)⟩
  | cons i rest ih =>
    intro result cache vs c2 hnd hbound h
    cases hb : back (keys.getD i "") with
    | error e =>
      simp only [gmFetch, hb, Prod.mk.injEq] at h
      exact absurd h.1 (by simp)
    | ok v =>
      simp only [gmFetch, hb] at h
      have hnd2 := List.nodup_cons.mp hnd
      have hbound2 : ∀ j ∈ rest, j < (result.set i v).length := by
        rw [List.length_set]
        exact fun j hj => hbound j (List.mem_cons_of_mem i hj)
      obtain ⟨hlen, hnot, hmem⟩ := ih _ _ _ _ hnd2.2 hbound2 h
      refine ⟨by rw [hlen, List.length_set], ?_, ?_⟩
      · intro j hj
        have hji : ¬ (i = j) :=
          fun he => hj (he ▸ List.mem_cons_self i rest)
        have hjr : j ∉ rest := fun hh => hj (List.mem_cons_of_mem i hh)
        rw [hnot j hjr, List.getElem?_set, if_neg hji]
      · intro i2 hi2
        rcases List.mem_cons.mp hi2 with he | hr
        · subst he
          refine ⟨v, hb, ?_⟩
          rw [hnot i2 hnd2.1, List.getElem?_set, if_pos rfl,
            if_pos (hbound i2 hi2)]
        · exact hmem i2 hr

theorem getD_eq_getElem {α : Type} (l : List α) (d : α) (i : Nat)
    (h : i < l.length) : l.getD i d = l[i] := by
  rw [List.getD_eq_getElem?_getD, List.getElem?_eq_getElem h]
  rfl

theorem gmResult_getElem {α : Type} (st : PckLoaderState α)
    (keys : List String) (i : Nat) (h : i < keys.length) :
    (gmResult st keys)[i]? =
      some (match lookupAL st.cache (keys.getD i "") with
            | some v => v
            | none => none) := by
  unfold gmResult
  rw [List.getElem?_map, List.getElem?_eq_getElem h,
    getD_eq_getElem keys "" i h]
  rfl

theorem mem_gmTodo {α : Type} (st : PckLoaderState α) (keys : List String)
    (i : Nat) :
    i ∈ gmTodo st keys ↔ i < keys.length ∧
      (match lookupAL st.cache (keys.getD i "") with
       | some v => v
       | none => none) = none := by
  unfold gmTodo
  rw [List.mem_filter, List.mem_range]
  constructor
  · rintro ⟨h1, h2⟩
    refine ⟨h1, ?_⟩
    rw [gmResult_getElem st keys i h1] at h2
    simpa [Option.isNone_iff_eq_none] using h2
  · rintro ⟨h1, h2⟩
    refine ⟨h1, ?_⟩
    rw [gmResult_getElem st keys i h1]
    exact Option.isNone_iff_eq_none.mpr h2

/-- Counterexample for C5: `get_many` performs no membership check against
`datakeys`, so a key absent from the KeyStore whose backing fetch happens to
succeed is returned silently, where `get` on the same loader and key raises
`KeyError` — `get_many` does not share `get`'s key-not-found semantics. -/
theorem C5_get_many_counterexample :
    (pckGetMany (fun _ => Except.ok (some (1 : Int)))
        ⟨"p", ["a"], [], [], []⟩ ["b"]).1 = .ok [some 1] ∧
    (pckGet (fun _ => Except.ok (some (1 : Int)))
        ⟨"p", ["a"], [], [], []⟩ "b").1 = .error .keyNotFound :=
  ⟨rfl, rfl⟩

/-- C5 (amended): `get_many` preserves input order — on success the result
has one value per requested key in order, the i-th being the cached value
when the cache holds a non-`None` value for the i-th key and the
freshly-fetched backing value otherwise; when every requested key is cached
with a non-`None` value nothing is fetched at all (the call returns the
cached values and the unchanged state for every backing function); and
non-`None` cached entries are never re-fetched or replaced.  (Unlike `get`,
no membership check against `datakeys` is made, so an absent key is passed
straight to the backing fetch; and an entry cached as Python `None` is
treated as missing and re-fetched.) -/
theorem C5_get_many_order_and_refetch {α : Type}
    (back : String → Except Unit (Option α)) (st : PckLoaderState α)
    (keys : List String) :
    (∀ vs, (pckGetMany back st keys).1 = .ok vs →
      vs.length = keys.length ∧
      ∀ i, i < keys.length →
        (∀ d, lookupAL st.cache (keys.getD i "") = some (some d) →
          vs[i]? = some (some d)) ∧
        ((match lookupAL st.cache (keys.getD i "") with
          | some v => v
          | none => none) = none →
          ∃ v, back (keys.getD i "") = .ok v ∧ vs[i]? = some v)) ∧
    ((∀ i, i < keys.length →
        (match lookupAL st.cache (keys.getD i "") with
         | some v => v
         | none => none) ≠ none) →
      ∀ back2 : String → Except Unit (Option α),
        pckGetMany back2 st keys = (.ok (gmResult st keys), st)) ∧
    (∀ k d, lookupAL st.cache k = some (some d) →
      lookupAL (pckGetMany back st keys).2.cache k = some (some d)) := by
  have htodonodup : (gmTodo st keys).Nodup :=
    List.Nodup.filter _ (List.nodup_range _)
  have htodobound : ∀ i ∈ gmTodo st keys, i < (gmResult st keys).length := by
    intro i hi
    have hm := (mem_gmTodo st keys i).mp hi
    unfold gmResult
    rw [List.length_map]
    exact hm.1
  refine ⟨?_, ?_, ?_⟩
  · intro vs hv
    unfold pckGetMany at hv
    by_cases hemp : (gmTodo st keys).isEmpty
    · rw [if_pos hemp] at hv
      have hv2 : Except.ok (gmResult st keys) = Except.ok vs := hv
      injection hv2 with hvs
      subst hvs
      refine ⟨by unfold gmResult; rw [List.length_map], ?_⟩
      intro i hi
      constructor
      · intro d hd
        rw [gmResult_getElem st keys i hi, hd]
      · intro hnone
        have hmem : i ∈ gmTodo st keys := (mem_gmTodo st keys i).mpr ⟨hi, hnone⟩
        rw [List.isEmpty_iff.mp hemp] at hmem
        exact absurd hmem (List.not_mem_nil i)
    · rw [if_neg hemp] at hv
      have heq : gmFetch back keys (gmTodo st keys) (gmResult st keys)
          st.cache = (.ok vs,
            (gmFetch back keys (gmTodo st keys) (gmResult st keys)
              st.cache).2) := by
        rw [← hv]
      obtain ⟨hlen, hnot, hmem⟩ :=
        gmFetch_ok back keys _ _ _ _ _ htodonodup htodobound heq
      refine ⟨by rw [hlen]; unfold gmResult; rw [List.length_map], ?_⟩
      intro i hi
      constructor
      · intro d hd
        have hnotin : i ∉ gmTodo st keys := by
          intro hii
          have := ((mem_gmTodo st keys i).mp hii).2
          rw [hd] at this
          exact absurd this (by simp)
        rw [hnot i hnotin, gmResult_getElem st keys i hi, hd]
      · intro hnone
        exact hmem i ((mem_gmTodo st keys i).mpr ⟨hi, hnone⟩)
  · intro hno back2
    have htd : gmTodo st keys = [] := by
      unfold gmTodo
      rw [List.filter_eq_nil_iff]
      intro a ha
      have halen : a < keys.length := List.mem_range.mp ha
      rw [gmResult_getElem st keys a halen]
      intro hpred
      exact hno a halen (Option.isNone_iff_eq_none.mp hpred)
    unfold pckGetMany
    rw [htd]
    rfl
  · intro k d hkd
    unfold pckGetMany
    by_cases hemp : (gmTodo st keys).isEmpty
    · rw [if_pos hemp]
      exact hkd
    · rw [if_neg hemp]
      have hne : ∀ i ∈ gmTodo st keys, keys.getD i "" ≠ k := by
        intro i hi hik
        have hm := ((mem_gmTodo st keys i).mp hi).2
        rw [hik, hkd] at hm
        exact absurd hm (by simp)
      have hpres := gmFetch_cache_pres back keys (gmTodo st keys)
        (gmResult st keys) st.cache k hne
      rw [show lookupAL (gmFetch back keys (gmTodo st keys)
          (gmResult st keys) st.cache).2 k = lookupAL st.cache k from hpres]
      exact hkd

/-- Witness for C5 (amended): a two-key request with a partial cache hit —
the cached key keeps its cached value in position 0, the uncached key gets
the backing value in position 1, and the result has one entry per key. -/
theorem C5_get_many_order_and_refetch_witness :
    ([some (7 : Int), some 9] : List (Option Int)).length =
      (["a", "b"] : List String).length ∧
    ([some (7 : Int), some 9] : List (Option Int))[0]? = some (some 7) ∧
    ∃ v, (fun _ : String =>
        (Except.ok (some (9 : Int)) : Except Unit (Option Int))) "b"
          = .ok v ∧
      ([some (7 : Int), some 9] : List (Option Int))[1]? = some v := by
  have h := (C5_get_many_order_and_refetch
    (fun _ => Except.ok (some (9 : Int)))
    ⟨"p", ["a", "b"], [], [], [("a", some 7)]⟩ ["a", "b"]).1
    [some 7, some 9] rfl
  refine ⟨h.1, ?_, ?_⟩
  · exact (h.2 0 (by decide)).1 7 rfl
  · exact (h.2 1 (by decide)).2 rfl

/-- C10: `get_many` is not atomic with respect to the cache — when the call
raises because fetching some todo key failed, the todo list splits as the
successfully fetched prefix, the failing position, and the rest; every key
of the prefix has already been inserted into the cache and is still cached
(with its fetched value) in the state the raising call leaves behind, while
the caller receives only the raised error and no values. -/
theorem C10_get_many_no_rollback {α : Type}
    (back : String → Except Unit (Option α)) (st : PckLoaderState α)
    (keys : List String) (e : Unit)
    (h : (pckGetMany back st keys).1 = .error e) :
    ∃ done i rest2, gmTodo st keys = done ++ i :: rest2 ∧
      back (keys.getD i "") = .error e ∧
      ∀ j ∈ done, ∃ v, back (keys.getD j "") = .ok v ∧
        lookupAL (pckGetMany back st keys).2.cache (keys.getD j "")
          = some v := by
  unfold pckGetMany at h ⊢
  by_cases hemp : (gmTodo st keys).isEmpty
  · rw [if_pos hemp] at h
    exact absurd h (by simp)
  · rw [if_neg hemp] at h ⊢
    have heq : gmFetch back keys (gmTodo st keys) (gmResult st keys)
        st.cache = (.error e,
          (gmFetch back keys (gmTodo st keys) (gmResult st keys)
            st.cache).2) := by
      rw [← h]
    exact gmFetch_err back keys _ _ _ _ _ heq

/-- Witness for C10: requesting `["a", "b"]` against a backing store that
succeeds on `"a"` and fails on `"b"` raises, yet leaves `"a"` cached with
its fetched value. -/
theorem C10_get_many_no_rollback_witness :
    (pckGetMany
        (fun k => if k = "b" then Except.error ()
          else Except.ok (some (1 : Int)))
        ⟨"p", ["a", "b"], [], [], []⟩ ["a", "b"]).1 = .error () ∧
    ∃ done i rest2,
      gmTodo (⟨"p", ["a", "b"], [], [], []⟩ : PckLoaderState Int) ["a", "b"]
        = done ++ i :: rest2 ∧
      (fun k => if k = "b" then Except.error ()
        else Except.ok (some (1 : Int))) ((["a", "b"] : List String).getD i "")
        = .error () ∧
      ∀ j ∈ done, ∃ v,
        (fun k => if k = "b" then Except.error ()
          else Except.ok (some (1 : Int)))
            ((["a", "b"] : List String).getD j "") = .ok v ∧
        lookupAL (pckGetMany
          (fun k => if k = "b" then Except.error ()
            else Except.ok (some (1 : Int)))
          ⟨"p", ["a", "b"], [], [], []⟩ ["a", "b"]).2.cache
            ((["a", "b"] : List String).getD j "") = some v := by
  refine ⟨rfl, ?_⟩
  exact C10_get_many_no_rollback
    (fun k => if k = "b" then Except.error () else Except.ok (some (1 : Int)))
    ⟨"p", ["a", "b"], [], [], []⟩ ["a", "b"] () rfl

/-- A concrete cached loader used to exhibit the cache-reset behavior of
`update`. -/
def c6Loader : PckLoaderState Int := ⟨"p", ["k"], [], [], [("k", some 7)]⟩

/-- Counterexample for C6: `update()` — an operation other than an explicit
`clear_cache()` call — removes a cached entry: after re-reading the same
key set, the previously cached value of `"k"` is gone. -/
theorem C6_cache_counterexample :
    lookupAL c6Loader.cache "k" = some (some 7) ∧
    lookupAL (pckUpdate c6Loader ["k"]).cache "k" = none :=
  ⟨rfl, rfl⟩

/-- C6 (amended): the per-instance cache is invalidated only by
`clear_cache()` and by `update()` (which resets it to a fresh empty dict):
`get` never removes or replaces any cached entry, and `get_many` never
removes or replaces an entry cached with a non-`None` value (an entry cached
as Python `None` is treated as missing).  A cached non-`None` value keeps
being returned across `get` and `get_many` calls. -/
theorem C6_cache_invalidation {α : Type}
    (back : String → Except Unit (Option α)) (st : PckLoaderState α) :
    (∀ key k v, lookupAL st.cache k = some v →
      lookupAL (pckGet back st key).2.cache k = some v) ∧
    (∀ keys k d, lookupAL st.cache k = some (some d) →
      lookupAL (pckGetMany back st keys).2.cache k = some (some d)) ∧
    ((clearCache st).cache = []) ∧
    (∀ getkeys, (pckUpdate st getkeys).cache = []) := by
  refine ⟨?_, ?_, rfl, fun _ => rfl⟩
  · intro key k v hkv
    unfold pckGet
    by_cases hmem : key ∈ st.datakeys
    · rw [if_pos hmem]
      cases hc : lookupAL st.cache key with
      | some w => exact hkv
      | none =>
        cases hb : back key with
        | ok w =>
          have hkne : k ≠ key := by
            intro he
            rw [he, hc] at hkv
            exact absurd hkv (by simp)
          simp only []
          rw [lookupAL_insertAL_ne _ _ _ _ hkne]
          exact hkv
        | error e => exact hkv
    · rw [if_neg hmem]
      exact hkv
  · intro keys k d hkd
    unfold pckGetMany
    by_cases hemp : (gmTodo st keys).isEmpty
    · rw [if_pos hemp]
      exact hkd
    · rw [if_neg hemp]
      have hne : ∀ i ∈ gmTodo st keys, keys.getD i "" ≠ k := by
        intro i hi hik
        have hm := ((mem_gmTodo st keys i).mp hi).2
        rw [hik, hkd] at hm
        exact absurd hm (by simp)
      rw [show lookupAL (gmFetch back keys (gmTodo st keys)
          (gmResult st keys) st.cache).2 k = lookupAL st.cache k from
        gmFetch_cache_pres back keys _ _ _ k hne]
      exact hkd

/-- Witness for C6 (amended): on the concrete cached loader, `get` of a
different key keeps `"k"` cached with its value, and `clear_cache` empties
the cache. -/
theorem C6_cache_invalidation_witness :
    lookupAL (pckGet (fun _ => Except.ok (some (0 : Int))) c6Loader
      "k").2.cache "k" = some (some 7) ∧
    (clearCache c6Loader).cache = [] := by
  have h := C6_cache_invalidation (fun _ => Except.ok (some (0 : Int)))
    c6Loader
  exact ⟨h.1 "k" "k" (some 7) rfl, h.2.2.1⟩

/-- A loader configured with the group-exclusion pattern `his$`. -/
def c7Loader : PckLoaderState Int :=
  ⟨"p", [], [], [.seq (.lit "his".data) .eos], []⟩

/-- Counterexample for C7: with exclusion pattern `his$` and backing keys
`["his/n", "history/x"]`, `update` drops every key (both start with the
excluded group name `"his"`) yet still reports group `"history"` — so
`groups()` is not the set of prefixes of the enumerated keys. -/
theorem C7_groups_counterexample :
    (pckUpdate c7Loader ["his/n", "history/x"]).datakeys = [] ∧
    (pckUpdate c7Loader ["his/n", "history/x"]).datagroups = ["history"] :=
  ⟨rfl, rfl⟩


/-- C7 (amended): after `update`, the reported groups never include the
empty-prefix root; every enumerated key's non-empty prefix is among the
reported groups; and when no group-exclusion filter is configured the
reported groups are exactly the non-empty prefixes of the enumerated keys.
(With a non-empty exclusion filter a reported group can be left with no
enumerated keys, because keys are dropped by group-name string prefix — see
the counterexample.) -/
theorem C7_groups_prefixes {α : Type} (st : PckLoaderState α)
    (getkeys : List String) :
    ("" ∉ (pckUpdate st getkeys).datagroups) ∧
    (∀ k ∈ (pckUpdate st getkeys).datakeys, dirname k ≠ "" →
      dirname k ∈ (pckUpdate st getkeys).datagroups) ∧
    (st.datagroups_exclude = [] →
      ∀ g, g ∈ (pckUpdate st getkeys).datagroups ↔
        (g ≠ "" ∧ ∃ k ∈ (pckUpdate st getkeys).datakeys, dirname k = g)) := by
  have hdg : (pckUpdate st getkeys).datagroups = sortKeys
      ((((getkeys.map dirname).dedup).filter (fun g => g ≠ "")).filter
        (fun g => ¬ st.datagroups_exclude.any
          (fun p => (reMatch p g).isSome))) := rfl
  have hdk : (pckUpdate st getkeys).datakeys =
      (if ((((getkeys.map dirname).dedup).filter (fun g => g ≠ "")).filter
          (fun g => st.datagroups_exclude.any
            (fun p => (reMatch p g).isSome))).isEmpty
      then getkeys
      else getkeys.filter (fun k =>
        ¬ ((((getkeys.map dirname).dedup).filter (fun g => g ≠ "")).filter
           (fun g => st.datagroups_exclude.any
             (fun p => (reMatch p g).isSome))).any
            (fun g => strStartsWith g k))) := rfl
  have hcore : ∀ k, k ∈ getkeys → dirname k ≠ "" →
      dirname k ∉ (((getkeys.map dirname).dedup).filter
        (fun g => g ≠ "")).filter (fun g =>
          st.datagroups_exclude.any (fun p => (reMatch p g).isSome)) →
      dirname k ∈ (pckUpdate st getkeys).datagroups := by
    intro k hk hne hnotexc
    rw [hdg]
    have hA : dirname k ∈ ((getkeys.map dirname).dedup).filter
        (fun g => g ≠ "") :=
      List.mem_filter.mpr
        ⟨List.mem_dedup.mpr (List.mem_map.mpr ⟨k, hk, rfl⟩),
         by simpa using hne⟩
    refine mem_sortKeys.mpr (List.mem_filter.mpr ⟨hA, ?_⟩)
    simp only [decide_eq_true_eq]
    intro hany
    exact hnotexc (List.mem_filter.mpr ⟨hA, hany⟩)
  refine ⟨?_, ?_, ?_⟩
  · intro hmem
    rw [hdg] at hmem
    have h1 := mem_sortKeys.mp hmem
    have h2 := (List.mem_filter.mp (List.mem_filter.mp h1).1).2
    simp at h2
  · intro k hk hne
    rw [hdk] at hk
    by_cases hexc : ((((getkeys.map dirname).dedup).filter
        (fun g => g ≠ "")).filter (fun g =>
          st.datagroups_exclude.any
            (fun p => (reMatch p g).isSome))).isEmpty
    · rw [if_pos hexc] at hk
      refine hcore k hk hne ?_
      rw [List.isEmpty_iff.mp hexc]
      exact List.not_mem_nil _
    · rw [if_neg hexc] at hk
      obtain ⟨hkin, hkpred⟩ := List.mem_filter.mp hk
      refine hcore k hkin hne ?_
      intro hdexc
      have hany : ((((getkeys.map dirname).dedup).filter
          (fun g => g ≠ "")).filter (fun g =>
            st.datagroups_exclude.any
              (fun p => (reMatch p g).isSome))).any
                (fun g => strStartsWith g k) = true :=
        List.any_eq_true.mpr ⟨dirname k, hdexc, dirname_isPrefix k⟩
      simp only [decide_eq_true_eq] at hkpred
      exact hkpred hany
  · intro hnoexc g
    rw [hdg, hdk, hnoexc]
    have hf1 : ((((getkeys.map dirname).dedup).filter
        (fun g => g ≠ "")).filter (fun g =>
          ¬ List.any [] (fun p => (reMatch p g).isSome))) =
        (((getkeys.map dirname).dedup).filter (fun g => g ≠ "")) :=
      List.filter_eq_self.mpr (fun a _ => rfl)
    have hf2 : ((((getkeys.map dirname).dedup).filter
        (fun g => g ≠ "")).filter (fun g =>
          List.any [] (fun p => (reMatch p g).isSome))) = [] :=
      List.filter_eq_nil_iff.mpr (fun a _ h => by simp at h)
    rw [hf1, hf2]
    have hif : (if (([] : List String).isEmpty = true) then getkeys
        else getkeys.filter (fun k =>
          ¬ (([] : List String).any (fun g => strStartsWith g k))))
          = getkeys := rfl
    rw [hif]
    rw [mem_sortKeys, List.mem_filter]
    constructor
    · rintro ⟨h1, h2⟩
      obtain ⟨k, hk, hdk2⟩ := List.mem_map.mp (List.mem_dedup.mp h1)
      exact ⟨by simpa using h2, k, hk, hdk2⟩
    · rintro ⟨h1, k, hk, hdk2⟩
      exact ⟨List.mem_dedup.mpr (List.mem_map.mpr ⟨k, hk, hdk2⟩),
        by simpa using h1⟩

/-- Witness for C7 (amended): a loader with no exclusion filter updated from
keys `["g/c", "bare"]` reports group `"g"` (the prefix of `"g/c"`) and never
the root. -/
theorem C7_groups_prefixes_witness :
    "" ∉ (pckUpdate (⟨"p", [], [], [], []⟩ : PckLoaderState Int)
        ["g/c", "bare"]).datagroups ∧
    dirname "g/c" ∈ (pckUpdate (⟨"p", [], [], [], []⟩ : PckLoaderState Int)
        ["g/c", "bare"]).datagroups := by
  have h := C7_groups_prefixes
    (⟨"p", [], [], [], []⟩ : PckLoaderState Int) ["g/c", "bare"]
  refine ⟨h.1, ?_⟩
  exact h.2.1 "g/c" (by decide) (by decide)

/-- Counterexample for C8: `BasePckLoader.update` stores `datakeys` in the
backing enumeration order without sorting, so two enumerations of the same
underlying key set in different orders yield different `keys()` orders —
`keys()` is not a stable sort of the key set. -/
theorem C8_keys_counterexample :
    (["b/x", "a/y"] : List String).Perm ["a/y", "b/x"] ∧
    (pckUpdate (⟨"p", [], [], [], []⟩ : PckLoaderState Int)
        ["b/x", "a/y"]).datakeys = ["b/x", "a/y"] ∧
    (pckUpdate (⟨"p", [], [], [], []⟩ : PckLoaderState Int)
        ["a/y", "b/x"]).datakeys = ["a/y", "b/x"] ∧
    (pckUpdate (⟨"p", [], [], [], []⟩ : PckLoaderState Int)
        ["b/x", "a/y"]).datakeys ≠
      (pckUpdate (⟨"p", [], [], [], []⟩ : PckLoaderState Int)
        ["a/y", "b/x"]).datakeys :=
  ⟨by decide, rfl, rfl, by decide⟩

/-- C8 (amended): `BaseRawLoader.keys()` is a genuinely canonical
enumeration — after `update` the filenames are sorted, every filename
matching an exclusion pattern is excluded, and any re-enumeration of the
same underlying set (any permutation of the backing listing) produces the
identical loader state.  `BasePckLoader.keys()` is only deterministic
relative to the backing enumeration sequence: `datakeys` is an
order-preserving sublist of the backing listing (filtered by excluded group
prefixes, not by direct key match), so reordering the backing enumeration
reorders `keys()`. -/
theorem C8_keys_enumeration {α : Type} (stRaw : RawLoaderState)
    (stPck : PckLoaderState α) (getkeys : List String) :
    ((rawUpdate stRaw getkeys).filenames.Sorted keyLe) ∧
    (∀ k ∈ (rawUpdate stRaw getkeys).filenames,
      k ∈ getkeys ∧
        ¬ stRaw.filenames_exclude.any (fun p => (reMatch p k).isSome)) ∧
    (∀ gk2, getkeys.Perm gk2 →
      rawUpdate stRaw getkeys = rawUpdate stRaw gk2) ∧
    ((pckUpdate stPck getkeys).datakeys.Sublist getkeys) := by
  refine ⟨sortKeys_sorted _, ?_, ?_, ?_⟩
  · intro k hk
    have h1 := mem_sortKeys.mp hk
    have h2 := List.mem_filter.mp h1
    exact ⟨h2.1, by simpa using h2.2⟩
  · intro gk2 hperm
    unfold rawUpdate
    rw [sortKeys_eq_of_perm (hperm.filter _)]
  · have hdk : (pckUpdate stPck getkeys).datakeys =
        (if ((((getkeys.map dirname).dedup).filter (fun g => g ≠ "")).filter
            (fun g => stPck.datagroups_exclude.any
              (fun p => (reMatch p g).isSome))).isEmpty
        then getkeys
        else getkeys.filter (fun k =>
          ¬ ((((getkeys.map dirname).dedup).filter (fun g => g ≠ "")).filter
             (fun g => stPck.datagroups_exclude.any
               (fun p => (reMatch p g).isSome))).any
              (fun g => strStartsWith g k))) := rfl
    rw [hdk]
    by_cases hexc : ((((getkeys.map dirname).dedup).filter
        (fun g => g ≠ "")).filter (fun g =>
          stPck.datagroups_exclude.any
            (fun p => (reMatch p g).isSome))).isEmpty
    · rw [if_pos hexc]
    · rw [if_neg hexc]
      exact List.filter_sublist getkeys

/-- Witness for C8 (amended): updating a raw loader from `["b", "a"]` and
from `["a", "b"]` produces the same sorted state. -/
theorem C8_keys_enumeration_witness :
    (rawUpdate ⟨"p", [], []⟩ ["b", "a"]).filenames.Sorted keyLe ∧
    rawUpdate ⟨"p", [], []⟩ ["b", "a"] = rawUpdate ⟨"p", [], []⟩ ["a", "b"] := by
  have h := C8_keys_enumeration ⟨"p", [], []⟩
    (⟨"p", [], [], [], []⟩ : PckLoaderState Int) ["b", "a"]
  exact ⟨h.1, h.2.2.1 ["a", "b"] (by decide)⟩
